import Mathlib

/-!
# Verification of the go-trader algorithm pipeline and trading coordinator

A shallow embedding of the quantitative-algorithm pipeline and the trading
coordinator of the `go-trader` repository, together with theorems settling
the specification claims.

Conventions of the embedding:
* Go `float64` arithmetic is modelled exactly: by `ℚ` wherever the source
  only uses field operations and comparisons, and by `ℝ` where the source
  takes square roots, logarithms or exponentials (`math.Sqrt`, `math.Log`,
  `math.Exp`).
* Go `int` is modelled by `ℤ`; the Go conversion `int(x)` from `float64`
  (truncation toward zero) is `goTrunc`.
* Fallible Go functions returning `(T, error)` become `Except String T`.
* Go maps with `string` keys become association lists; where the source's
  behaviour could depend on Go's randomized map-iteration order this is
  noted at the definition and theorems quantify over the presented order.
* Randomized sampling (`math/rand`) is modelled by passing the outcome of
  the random draw as an explicit parameter, so theorems quantify over all
  possible draws.
* Explanation / log strings built with `fmt.Sprintf` are not modelled;
  result records keep the signal, order type, limit price and confidence.
-/

namespace GoTrader

/-- Go's `int(x)` conversion from `float64`: truncation toward zero. -/
def goTrunc (q : ℚ) : ℤ := if 0 ≤ q then ⌊q⌋ else ⌈q⌉

/-- `MarketData` (coordinator snapshot for one symbol); prices exact. -/
structure MarketData where
  price : ℚ := 0
  high24h : ℚ := 0
  low24h : ℚ := 0
  volume24h : ℚ := 0
  change24h : ℚ := 0
deriving DecidableEq, Inhabited

/-- `AlgorithmConfig`: common fields plus the `AdditionalParams` option map
(modelled as an association list, first binding wins on lookup). -/
structure AlgorithmConfig where
  riskAversion : ℚ := 0
  maxPositionWeight : ℚ := 0
  minPositionWeight : ℚ := 0
  targetReturn : ℚ := 0
  historicalDays : ℤ := 0
  additionalParams : List (String × ℚ) := []

/-- Lookup of an option in `AdditionalParams` (`val, ok := m[k]`). -/
def AlgorithmConfig.lookup (c : AlgorithmConfig) (k : String) : Option ℚ :=
  (c.additionalParams.find? (fun p => p.1 == k)).map (fun p => p.2)

/-- `AlgorithmResult` for the algorithms whose arithmetic is rational
(signal tag, order type, optional limit price, confidence). -/
structure AlgorithmResult where
  signal : String
  orderType : String
  limitPrice : Option ℚ := none
  confidence : ℚ
deriving DecidableEq, Inhabited

/-! ## Fractional differentiation (`GetWeights`, Snippet 5.1) -/

/-- The weight recurrence of `GetWeights`:
`w[0] = 1`, `w[k] = w[k-1] * (-d + k - 1) / k`. -/
def fracWeight (d : ℚ) : ℕ → ℚ
  | 0 => 1
  | k + 1 => fracWeight d k * (-d + (k + 1 : ℚ) - 1) / (k + 1 : ℚ)

/-- `GetWeights(d, size)`: the first `size` fractional-differencing weights. -/
def GetWeights (d : ℚ) (size : ℕ) : List ℚ :=
  (List.range size).map (fracWeight d)

/-! ## Purged cross-validation (`purgedKFold` / `PurgedKFold`) -/

/-- A cross-validation fold (train / test index sets). The per-fold
timestamp slices of the source are images of these index lists and are not
modelled separately. -/
structure CVFold where
  trainIndices : List ℕ
  testIndices : List ℕ
deriving DecidableEq, Inhabited

/-- Per-fold test shard size: `int(math.Ceil(float64(numSamples) * testSize))`. -/
def purgedTestSize (n : ℕ) (testSize : ℚ) : ℕ := (⌈(n : ℚ) * testSize⌉).toNat

/-- The test-index shards of `purgedKFold`: fold `i` takes `testSize`
consecutive indices starting at `(i*testSize) % n`, wrapping around the end
of `[0, n)` (`append(indices[start:], indices[:end-numSamples]...)`), then
sorts them (`sort.Ints`). -/
def purgedKFoldTests (n numFolds : ℕ) (testSize : ℚ) : List (List ℕ) :=
  let m := purgedTestSize n testSize
  (List.range numFolds).map fun i =>
    let start := (i * m) % n
    if start + m ≤ n then
      List.insertionSort (· ≤ ·) (List.range' start m)
    else
      List.insertionSort (· ≤ ·) (List.range' start (n - start) ++ List.range (start + m - n))

/-- One fold of `purgedKFold`: the train set is every index of `[0, n)` not
in the test shard.  (Purging and embargo only run when event times are
supplied; the `PurgedKFold` utility supplies none, so they are inactive.) -/
def purgedKFoldFoldsOf (n : ℕ) (tests : List (List ℕ)) : List CVFold :=
  tests.map fun test =>
    { trainIndices := (List.range n).filter (fun j => ¬ test.contains j)
      testIndices := test }

/-- The `PurgedKFold(samples, numFolds, embargoPct)` utility: builds a
`PurgedCVAlgorithm` with `testSize = 1/numFolds` and no event times and runs
`purgedKFold` on `n = len(samples)` synthetic sample times.  With no event
times neither purging nor the embargo applies, so `embargoPct` is unused by
the source on this path. -/
def PurgedKFold (n numFolds : ℕ) (embargoPct : ℚ) : Except String (List CVFold) :=
  let _ := embargoPct
  if n = 0 then .error "no sample times provided"
  else .ok (purgedKFoldFoldsOf n (purgedKFoldTests n numFolds (1 / (numFolds : ℚ))))

/-! ## Triple barrier (`ApplyTripleBarrier`, Snippets 3.2-3.3) -/

/-- `TripleBarrierConfig`. -/
structure TripleBarrierConfig where
  profitTaking : ℚ
  stopLoss : ℚ
  timeHorizon : ℕ
  volatilityLookback : ℕ := 20
deriving DecidableEq

/-- `BarrierResult`; `barrierHit` keeps the Go string values
(`"upper"` / `"lower"` / `"time"`, `""` when the scan loop never ran),
`label` is `1` (buy), `-1` (sell) or `0` (hold).  Times are the synthetic
daily indices the source fabricates. -/
structure BarrierResult where
  label : ℤ
  exitTime : ℤ
  exitPrice : ℚ
  barrierHit : String
  entryTime : ℤ
  entryPrice : ℚ
deriving DecidableEq, Inhabited

/-- The inner scan loop of `ApplyTripleBarrier` for one entry: walk
`j = i+1 … timeBarrierIdx`, exiting at the first barrier hit; on an upper
hit a buy-seeded label is confirmed and any other label becomes sell, on a
lower hit a buy-seeded label becomes sell and any other becomes buy; at the
time barrier the label is the sign of the move since entry.  `rem` is the
remaining iteration count `timeBarrierIdx + 1 - j` (structural fuel for the
Go `for` loop); when the loop never runs the Go zero values
(`hitBarrier = ""`, `exitIdx = 0`) are returned with the seeded label. -/
def tbWalk (prices : List ℚ) (upperBarrier lowerBarrier entryPrice : ℚ)
    (timeBarrierIdx : ℕ) : ℤ → ℕ → ℕ → String × ℕ × ℤ
  | label, _, 0 => ("", 0, label)
  | label, j, rem + 1 =>
    let currentPrice := prices.getD j 0
    if currentPrice ≥ upperBarrier then
      ("upper", j, if label = 1 then 1 else -1)
    else if currentPrice ≤ lowerBarrier then
      ("lower", j, if label = 1 then -1 else 1)
    else if j = timeBarrierIdx then
      ("time", j,
        if currentPrice > entryPrice then 1
        else if currentPrice < entryPrice then -1 else 0)
    else
      tbWalk prices upperBarrier lowerBarrier entryPrice timeBarrierIdx label (j + 1) rem

/-- `ApplyTripleBarrier(prices, times, volatility, config)`: for each entry
index `i < len-1`, barriers at `p_i(1 ± mult·σ)`, a trend-seeded label from
the immediately prior price move (`0` at `i = 0`), and the scan loop above. -/
def ApplyTripleBarrier (prices : List ℚ) (times : List ℤ) (volatility : ℚ)
    (config : TripleBarrierConfig) : Except String (List BarrierResult) :=
  if prices.length < 2 then .error "need at least 2 price points"
  else if prices.length ≠ times.length then .error "prices and times must have the same length"
  else if volatility ≤ 0 then .error "volatility must be positive"
  else .ok <| (List.range (prices.length - 1)).map fun i =>
    let entryPrice := prices.getD i 0
    let entryTime := times.getD i 0
    let upperBarrier := entryPrice * (1 + config.profitTaking * volatility)
    let lowerBarrier := entryPrice * (1 - config.stopLoss * volatility)
    let timeBarrierIdx := min (i + config.timeHorizon) (prices.length - 1)
    let trend : ℚ := if 0 < i then prices.getD i 0 - prices.getD (i - 1) 0 else 0
    let seed : ℤ := if trend > 0 then 1 else if trend < 0 then -1 else 0
    let rem := timeBarrierIdx + 1 - (i + 1)
    let out := tbWalk prices upperBarrier lowerBarrier entryPrice timeBarrierIdx seed (i + 1) rem
    { label := out.2.2
      entryTime := entryTime
      entryPrice := entryPrice
      exitTime := times.getD out.2.1 0
      exitPrice := prices.getD out.2.1 0
      barrierHit := out.1 }

/-! ## Sequential Bootstrap (`SequentialBootstrapAlgorithm`) -/

/-- The configurable state of `SequentialBootstrapAlgorithm`. -/
structure SBState where
  lookbackPeriod : ℤ
  confidenceThreshold : ℚ
  useSequential : Bool
  sampleSize : ℤ
deriving DecidableEq

/-- `SequentialBootstrapAlgorithm.Configure`: sets the defaults
`(20, 0.65, true, 50)` and then overrides from `AdditionalParams`,
rejecting `lookback_period < 1`, `confidence_threshold ∉ [0,1]` and
`sample_size < 1`. -/
def sbConfigure (cfg : AlgorithmConfig) : Except String SBState := do
  let lookbackPeriod : ℤ ←
    match cfg.lookup "lookback_period" with
    | some v =>
      if v < 1 then .error "lookback_period must be at least 1" else .ok (goTrunc v)
    | none => .ok 20
  let confidenceThreshold : ℚ ←
    match cfg.lookup "confidence_threshold" with
    | some v =>
      if v < 0 ∨ v > 1 then .error "confidence_threshold must be between 0 and 1" else .ok v
    | none => .ok (65 / 100)
  let useSequential : Bool ←
    match cfg.lookup "use_sequential" with
    | some v => .ok (decide (v > 1/2))
    | none => .ok true
  let sampleSize : ℤ ←
    match cfg.lookup "sample_size" with
    | some v =>
      if v < 1 then .error "sample_size must be at least 1" else .ok (goTrunc v)
    | none => .ok 50
  .ok ⟨lookbackPeriod, confidenceThreshold, useSequential, sampleSize⟩

/-- The state produced by `Configure(AlgorithmConfig{})`. -/
def sbDefault : SBState := ⟨20, 65 / 100, true, 50⟩

/-- `seqBootstrap`'s effective sample length:
`if sLength <= 0 { sLength = c }`. -/
def effSampleLen (sLength : ℤ) (c : ℕ) : ℤ := if sLength ≤ 0 then (c : ℤ) else sLength

/-- `SequentialBootstrapAlgorithm.Process`.  The bootstrap draw is
randomized in the source (`seqBootstrap` / `standardBootstrap` use
`math/rand`), so the draw's outcome is the explicit `samples` parameter and
theorems quantify over every possible draw.  The deterministic error checks
run exactly as in the source before any draw: insufficient history, an
empty indicator matrix (`getIndMatrix`), and — on the sequential path —
a sample length exceeding the column count of the `c×c` indicator matrix
built from the last `lookbackPeriod` bars. -/
def sbProcess (s : SBState) (hist : List MarketData) (samples : List ℕ) :
    Except String AlgorithmResult :=
  if (hist.length : ℤ) < s.lookbackPeriod then
    .error "insufficient historical data"
  else
    let histTrim :=
      if (hist.length : ℤ) > s.lookbackPeriod then
        hist.drop (hist.length - s.lookbackPeriod.toNat)
      else hist
    if histTrim.length = 0 then
      .error "bar indices or t1 series cannot be empty"
    else
      let c := histTrim.length
      if s.useSequential ∧ effSampleLen s.sampleSize c > (c : ℤ) then
        .error "sample length cannot exceed number of columns"
      else
        let ups := samples.countP fun idx =>
          decide (idx + 1 < c) &&
            decide ((histTrim.getD idx default).price < (histTrim.getD (idx + 1) default).price)
        let downs := samples.countP fun idx =>
          decide (idx + 1 < c) &&
            ! decide ((histTrim.getD idx default).price < (histTrim.getD (idx + 1) default).price)
        let total := ups + downs
        let base : ℚ × String × String :=
          if 0 < total then
            if downs < ups then ((ups : ℚ) / (total : ℚ), "BUY", "MARKET")
            else ((downs : ℚ) / (total : ℚ), "SELL", "MARKET")
          else (1/2, "HOLD", "NONE")
        let final := if base.1 < s.confidenceThreshold then (base.1, "HOLD", "NONE") else base
        .ok { signal := final.2.1, orderType := final.2.2, limitPrice := none,
              confidence := final.1 }

/-- The pass-through test of `MetaLabelingAlgorithm.Process` on the primary
result: `primaryResult.Signal == "hold"`. -/
def mlPassThrough (r : AlgorithmResult) : Bool := r.signal == "hold"

/-! ## Ensemble combiner (`AlgorithmManager.combineResults`) -/

/-- `signalWeights[tag]`: the sum of the confidences of the results
carrying exactly the tag (string equality, case-sensitive). -/
def signalWeightSum (results : List AlgorithmResult) (tag : String) : ℚ :=
  ((results.filter (fun r => r.signal == tag)).map (fun r => r.confidence)).sum

/-- `totalConfidence`: sum of all constituent confidences. -/
def totalConfidenceOf (results : List AlgorithmResult) : ℚ :=
  (results.map (fun r => r.confidence)).sum

/-- The distinct signal tags of the results (the key set of the Go
`signalWeights` map) in first-encounter order. -/
def distinctSignals (results : List AlgorithmResult) : List String :=
  results.foldl (fun acc r => if acc.contains r.signal then acc else acc ++ [r.signal]) []

/-- The arg-max scan over `signalWeights` (strictly-greater replacement
starting from the Go zero values `"" , 0`).  Go iterates the map in a
randomized order; here the distinct tags are visited in first-encounter
order, which agrees with every Go execution whenever the maximal weight is
unique. -/
def combinePick (weight : String → ℚ) (tags : List String) : String × ℚ :=
  tags.foldl (fun acc tag => if weight tag > acc.2 then (tag, weight tag) else acc) ("", 0)

/-- `AlgorithmManager.combineResults`: confidence-weighted voting, the
hold override when buy and sell weights are close, and the limit-order
promotion for high-confidence buys. -/
def combineResults (results : List AlgorithmResult) : Except String AlgorithmResult :=
  match results with
  | [] => .error "no results to combine"
  | [r] => .ok r
  | _ :: _ :: _ =>
    let totalBuyWeight := signalWeightSum results "buy"
    let totalSellWeight := signalWeightSum results "sell"
    let totalConfidence := totalConfidenceOf results
    let norm : String → ℚ := fun tag =>
      if 0 < totalConfidence then signalWeightSum results tag / totalConfidence
      else signalWeightSum results tag
    let pick := combinePick norm (distinctSignals results)
    let after :=
      if |totalBuyWeight - totalSellWeight| < (2/10) * totalConfidence ∧
          (pick.1 = "buy" ∨ pick.1 = "sell") then
        ("hold", (totalBuyWeight + totalSellWeight) / 2)
      else pick
    let buyLimits := results.filterMap fun r =>
      if r.signal == "buy" then r.limitPrice else none
    let ot :=
      if after.1 = "buy" ∧ after.2 > 7/10 then
        ("limit",
          if 0 < buyLimits.length then some (buyLimits.sum / (buyLimits.length : ℚ)) else none)
      else ("market", (none : Option ℚ))
    .ok { signal := after.1, orderType := ot.1, limitPrice := ot.2, confidence := after.2 }

/-! ## Coordinator risk parameters (`UpdateRiskParameters`) -/

/-- A value of the coordinator's `map[string]interface{}` risk-parameter
map: a Go `float64`, a Go `int`, or a value of any other dynamic type. -/
inductive RVal
  | rfloat (q : ℚ)
  | rint (n : ℤ)
  | rother
deriving DecidableEq

/-- Validation (and coercion) of a single entry of the update map: the four
percent fields accept positive floats and positive ints (coerced to float);
`max_trades_per_day` accepts positive ints and positive integral floats
(coerced to int); anything else — wrong dynamic type, non-positive value,
non-integral float for the integer field, or an unknown key — fails. -/
def validateRiskParam : String × RVal → Except String (String × RVal)
  | (k, v) =>
    if k = "max_position_size_percent" ∨ k = "max_daily_drawdown" ∨
        k = "stop_loss_percent" ∨ k = "take_profit_percent" then
      match v with
      | .rfloat q => if q ≤ 0 then .error "parameter must be positive" else .ok (k, .rfloat q)
      | .rint n => if n ≤ 0 then .error "parameter must be positive" else .ok (k, .rfloat (n : ℚ))
      | .rother => .error "parameter must be numeric"
    else if k = "max_trades_per_day" then
      match v with
      | .rfloat q =>
        if q ≤ 0 ∨ (⌊q⌋ : ℚ) ≠ q then .error "parameter must be a positive integer"
        else .ok (k, .rint (goTrunc q))
      | .rint n => if n ≤ 0 then .error "parameter must be positive" else .ok (k, .rint n)
      | .rother => .error "parameter must be an integer"
    else .error "unknown parameter"

/-- `m[k] = v` on an association list (replace an existing binding, append
otherwise). -/
def setAssoc (m : List (String × RVal)) (k : String) (v : RVal) : List (String × RVal) :=
  if m.any (fun p => p.1 == k) then m.map (fun p => if p.1 == k then (k, v) else p)
  else m ++ [(k, v)]

/-- The coordinator's initial risk parameters. -/
def initialRiskParameters : List (String × RVal) :=
  [("max_position_size_percent", .rfloat 5), ("max_daily_drawdown", .rfloat 10),
   ("stop_loss_percent", .rfloat 5), ("take_profit_percent", .rfloat 15),
   ("max_trades_per_day", .rint 10)]

/-- The validation loop of `UpdateRiskParameters`: validate every entry in
iteration order, returning the coerced entries, or the first error. -/
def validateAllRiskParams : List (String × RVal) → Except String (List (String × RVal))
  | [] => .ok []
  | kv :: rest =>
    match validateRiskParam kv with
    | .error e => .error e
    | .ok kv2 =>
      match validateAllRiskParams rest with
      | .error e => .error e
      | .ok rest2 => .ok (kv2 :: rest2)

/-- `TradingAlgorithm.UpdateRiskParameters`: a validation pass over every
entry of the update map (mutating only the caller's map through the
coercions) followed, only when every entry validated, by an apply pass into
the stored map.  Returns the stored map after the call together with the
optional error.  Go iterates the update map in randomized order;
the entry list here presents one such order and theorems quantify over it. -/
def UpdateRiskParameters (stored : List (String × RVal)) (params : List (String × RVal)) :
    List (String × RVal) × Option String :=
  match validateAllRiskParams params with
  | .error e => (stored, some e)
  | .ok coerced => (coerced.foldl (fun acc kv => setAssoc acc kv.1 kv.2) stored, none)

/-! ## Coordinator trade gate (`ExecuteTrade`) -/

/-- `PositionData` (only the fields the gate reads). -/
structure PositionData where
  quantity : ℚ
  avgPrice : ℚ := 0
  marketVal : ℚ := 0
deriving DecidableEq, Inhabited

/-- `PortfolioData` (positions keyed by symbol, total value). -/
structure PortfolioData where
  balance : ℚ := 0
  positions : List (String × PositionData) := []
  totalValue : ℚ := 0
deriving DecidableEq, Inhabited

/-- A `TradeSignal` as consumed by the gate. -/
structure TradeSignal where
  symbol : String
  signal : String
  orderType : String
  limitPrice : Option ℚ := none
deriving DecidableEq, Inhabited

/-- The coordinator state the gate reads under the read lock. -/
structure TAState where
  marketData : List (String × MarketData) := []
  portfolio : PortfolioData := {}
  riskParameters : List (String × RVal) := initialRiskParameters
deriving Inhabited

/-- Association-list lookup (Go map read with comma-ok). -/
def assocFind {α : Type} (m : List (String × α)) (k : String) : Option α :=
  (m.find? (fun p => p.1 == k)).map (fun p => p.2)

/-- `TradingAlgorithm.calculatePositionSize(positionValue, currentPrice, isBuy)`:
shares are `float64(int(positionValue / currentPrice))` (truncation), with a
non-positive price replaced by `1.0` after a warning, and the sign flipped
for shorts. -/
def calculatePositionSize (positionValue currentPrice : ℚ) (isBuy : Bool) : ℚ :=
  let price := if currentPrice ≤ 0 then 1 else currentPrice
  let qty : ℚ := ((goTrunc (positionValue / price) : ℤ) : ℚ)
  if isBuy then qty else -qty

/-- The order the gate would submit (side, quantity, order type, and the
limit price — `0` is Go's zero value when the signal carries none). -/
structure OrderDetails where
  side : String
  qty : ℚ
  orderType : String
  limitPrice : ℚ
deriving DecidableEq, Inhabited

/-- `max_position_size_percent` read with the `.(float64)` type assertion,
defaulting to `5.0` when the stored value is not a float. -/
def maxPosSizeOf (st : TAState) : ℚ :=
  match assocFind st.riskParameters "max_position_size_percent" with
  | some (.rfloat q) => q
  | _ => 5

/-- `TradingAlgorithm.ExecuteTrade(signal)`: the signal gate.  `.ok none`
is a logged no-op reported as success (existing long on buy, no position on
close, hold); `.ok (some o)` carries the order the source would log and
submit. -/
def ExecuteTrade (st : TAState) (signal : Option TradeSignal) :
    Except String (Option OrderDetails) :=
  match signal with
  | none => .error "signal is nil"
  | some sig =>
    match assocFind st.marketData sig.symbol with
    | none => .error "market data not found for symbol"
    | some marketData =>
      let position? := assocFind st.portfolio.positions sig.symbol
      let limitPrice := sig.limitPrice.getD 0
      if sig.signal = "buy" then
        match position? with
        | some position =>
          if position.quantity > 0 then .ok none
          else
            let positionValue := st.portfolio.totalValue * (maxPosSizeOf st / 100)
            .ok (some ⟨"buy", calculatePositionSize positionValue marketData.price true,
                  sig.orderType, limitPrice⟩)
        | none =>
          let positionValue := st.portfolio.totalValue * (maxPosSizeOf st / 100)
          .ok (some ⟨"buy", calculatePositionSize positionValue marketData.price true,
                sig.orderType, limitPrice⟩)
      else if sig.signal = "sell" then
        match position? with
        | some position =>
          if position.quantity > 0 then
            .ok (some ⟨"sell", position.quantity, sig.orderType, limitPrice⟩)
          else
            let positionValue := st.portfolio.totalValue * (maxPosSizeOf st / 100)
            .ok (some ⟨"sell", calculatePositionSize positionValue marketData.price false,
                  sig.orderType, limitPrice⟩)
        | none =>
          let positionValue := st.portfolio.totalValue * (maxPosSizeOf st / 100)
          .ok (some ⟨"sell", calculatePositionSize positionValue marketData.price false,
                sig.orderType, limitPrice⟩)
      else if sig.signal = "close" then
        match position? with
        | none => .ok none
        | some position =>
          .ok (some ⟨if position.quantity > 0 then "sell" else "buy",
                |position.quantity|, sig.orderType, limitPrice⟩)
      else if sig.signal = "hold" then .ok none
      else .error "unknown signal type"

/-! ## Configure of the CUSUM filter and of Purged CV (for the
unknown-option claim) -/

/-- The configurable state of `CUSUMFilterAlgorithm` (thresholds only; the
running `spPrev`/`snPrev` pair is not touched by `Configure`). -/
structure CUSUMState where
  threshold : ℚ
  drift : ℚ
deriving DecidableEq

/-- `CUSUMFilterAlgorithm.Configure`: overwrites `threshold` and `drift`
when present with no range checks, every other key is ignored, and the
embedded `BaseAlgorithm.Configure` always succeeds — so it never fails. -/
def cusumConfigure (s : CUSUMState) (cfg : AlgorithmConfig) : Except String CUSUMState :=
  let s1 := match cfg.lookup "threshold" with
    | some v => { s with threshold := v }
    | none => s
  let s2 := match cfg.lookup "drift" with
    | some v => { s1 with drift := v }
    | none => s1
  .ok s2

/-- The configurable state of `PurgedCVAlgorithm`. -/
structure PCVState where
  numFolds : ℤ
  embargoPct : ℚ
  testSize : ℚ
deriving DecidableEq

/-- `PurgedCVAlgorithm.Configure`: defaults `(5, 0.01, 0.3)`, range checks
on the three recognized options, unknown keys ignored. -/
def pcvConfigure (cfg : AlgorithmConfig) : Except String PCVState := do
  let numFolds : ℤ ←
    match cfg.lookup "num_folds" with
    | some v => if v < 2 then .error "num_folds must be at least 2" else .ok (goTrunc v)
    | none => .ok 5
  let embargoPct : ℚ ←
    match cfg.lookup "embargo_pct" with
    | some v =>
      if v < 0 ∨ v > 1/2 then .error "embargo_pct must be between 0 and 0.5" else .ok v
    | none => .ok (1/100)
  let testSize : ℚ ←
    match cfg.lookup "test_size" with
    | some v =>
      if v ≤ 0 ∨ v ≥ 1 then .error "test_size must be between 0 and 1" else .ok v
    | none => .ok (3/10)
  .ok ⟨numFolds, embargoPct, testSize⟩

/-- `BaseAlgorithm.Configure`: stores the config and always succeeds. -/
def baseConfigure (cfg : AlgorithmConfig) : Except String AlgorithmConfig := .ok cfg

/-! ## Real-valued statistics and the MVO algorithm

The source computes these with `math.Sqrt` / `math.Log` / `math.Exp`, so
they are embedded over `ℝ`. -/

noncomputable section

open scoped Classical

/-- `mean` (hrp.go): arithmetic mean, `0` on the empty list. -/
def mean (values : List ℝ) : ℝ :=
  if values.length = 0 then 0 else values.sum / (values.length : ℝ)

/-- `standardDeviation` (hrp.go): sample standard deviation
(`Σ(v-μ)² / (n-1)` under a square root), `0` for fewer than two values. -/
def standardDeviation (values : List ℝ) : ℝ :=
  if values.length < 2 then 0
  else Real.sqrt ((values.map (fun v => (v - mean values) ^ 2)).sum / ((values.length : ℝ) - 1))

/-- Simple relative returns `(p_i - p_{i-1}) / p_{i-1}` as computed by the
HRP / MVO loops. -/
def relReturns (prices : List ℝ) : List ℝ :=
  List.zipWith (fun a b => (b - a) / a) prices prices.tail

/-- An algorithm result whose numeric fields live in `ℝ`. -/
structure AlgorithmResultR where
  signal : String
  orderType : String
  limitPrice : Option ℝ := none
  confidence : ℝ

/-- Coercion of a rational-valued result. -/
def AlgorithmResult.toR (r : AlgorithmResult) : AlgorithmResultR :=
  ⟨r.signal, r.orderType, r.limitPrice.map (fun q => (q : ℝ)), (r.confidence : ℝ)⟩

/-- `MVOAlgorithm.Process` (single-asset branch; the `data == nil` error is
outside this total model).  Sharpe is `μ/σ` guarded by `σ > 0`, utility is
`μ - λσ²/2`; buy at a 1%-discounted limit when Sharpe clears `min_sharpe`
and utility is positive, hold on weakly positive profiles, sell otherwise
with confidence `0.7 - min(0.2, sharpe)`. -/
def mvoProcess (cfg : AlgorithmConfig) (data : MarketData) (historicalData : List MarketData) :
    AlgorithmResultR :=
  let prices : List ℝ := historicalData.map (fun d => (d.price : ℝ))
  let returns := relReturns prices
  if 0 < returns.length then
    let expectedReturn := mean returns
    let risk := standardDeviation returns
    let sharpeRatio := if risk > 0 then expectedReturn / risk else 0
    let riskAversion : ℝ := match cfg.lookup "risk_aversion" with
      | some v => (v : ℝ)
      | none => 2
    let minSharpe : ℝ := match cfg.lookup "min_sharpe" with
      | some v => (v : ℝ)
      | none => 1/2
    let utility := expectedReturn - riskAversion * risk * risk / 2
    if sharpeRatio > minSharpe ∧ utility > 0 then
      { signal := "buy", orderType := "limit",
        limitPrice := some ((data.price : ℝ) * (99/100)),
        confidence := 65/100 + min (25/100) (sharpeRatio / 4) }
    else if sharpeRatio > 0 ∧ utility > -(1/1000) then
      { signal := "hold", orderType := "market", confidence := 6/10 }
    else
      { signal := "sell", orderType := "market",
        confidence := 7/10 - min (2/10) sharpeRatio }
  else
    { signal := "hold", orderType := "market", confidence := 1/2 }

/-! ## Meta-Labeling (`MetaLabelingAlgorithm`) -/

/-- The feature families of meta-labeling. -/
inductive FeatureType
  | price
  | volume
  | volatility
  | technical
deriving DecidableEq

/-- The configurable state of `MetaLabelingAlgorithm` that `Process` reads
(the model type is always `simple_rules`, the primary algorithm always
Sequential Bootstrap, weights `[0.2, 0.2, 0.3, 0.3]` and bias `-0.1` are
fixed by `Configure`). -/
structure MLState where
  confidenceThreshold : ℚ
  features : List FeatureType

/-- `MetaLabelingAlgorithm.Configure`: threshold default `0.6` with a range
check, feature-family toggles removing families when `≤ 0.5`, failing when
no family remains.  Unknown keys are ignored. -/
def mlConfigure (cfg : AlgorithmConfig) : Except String MLState := do
  let threshold : ℚ ←
    match cfg.lookup "confidence_threshold" with
    | some v =>
      if v < 0 ∨ v > 1 then .error "confidence_threshold must be between 0 and 1" else .ok v
    | none => .ok (6/10)
  let fs0 : List FeatureType := [.price, .volume, .volatility, .technical]
  let fs1 := match cfg.lookup "use_price_features" with
    | some v => if v ≤ 1/2 then fs0.erase .price else fs0
    | none => fs0
  let fs2 := match cfg.lookup "use_volume_features" with
    | some v => if v ≤ 1/2 then fs1.erase .volume else fs1
    | none => fs1
  let fs3 := match cfg.lookup "use_volatility_features" with
    | some v => if v ≤ 1/2 then fs2.erase .volatility else fs2
    | none => fs2
  let fs4 := match cfg.lookup "use_technical_features" with
    | some v => if v ≤ 1/2 then fs3.erase .technical else fs3
    | none => fs3
  if fs4 = [] then .error "at least one feature type must be enabled"
  else .ok ⟨threshold, fs4⟩

/-- `sigmoid(x) = 1 / (1 + e^{-x})`. -/
def sigmoid (x : ℝ) : ℝ := 1 / (1 + Real.exp (-x))

/-- The fixed `featureRanges` table set by `Configure`. -/
def featureRange : String → Option (ℝ × ℝ)
  | "price_change" => some (-(1/20), 1/20)
  | "volume_ratio" => some (0, 3)
  | "volatility" => some (0, 1/20)
  | "rsi" => some (0, 100)
  | "macd" => some (-(1/20), 1/20)
  | "bollinger_pct_b" => some (0, 1)
  | _ => none

/-- `normalizeFeature`: clamp `(v - min) / (max - min)` to `[0, 1]`, the
value unchanged when no range is defined. -/
def normalizeFeature (value : ℝ) (name : String) : ℝ :=
  match featureRange name with
  | none => value
  | some (lo, hi) => max 0 (min 1 ((value - lo) / (hi - lo)))

/-- `calculateVolatility`: sample standard deviation of log returns;
requires at least `window` prices. -/
def calculateVolatility (prices : List ℝ) (window : ℕ) : Except String ℝ :=
  if prices.length < window then .error "insufficient data for volatility calculation"
  else
    let returns := List.zipWith (fun a b => Real.log (b / a)) prices prices.tail
    let m := returns.sum / (returns.length : ℝ)
    let variance := (returns.map (fun r => (r - m) ^ 2)).sum / ((returns.length : ℝ) - 1)
    .ok (Real.sqrt variance)

/-- `calculateRSI`: Wilder's initial-average convention over the first
`period` changes; `50` on insufficient data, `100` when the average loss is
zero. -/
def calculateRSI (prices : List ℝ) (period : ℕ) : ℝ :=
  if prices.length < period + 1 then 50
  else
    let changes := (List.zipWith (fun a b => b - a) prices prices.tail).take period
    let gains := (changes.map (fun c => if 0 ≤ c then c else 0)).sum
    let losses := (changes.map (fun c => if 0 ≤ c then 0 else -c)).sum
    let avgGain := gains / (period : ℝ)
    let avgLoss := losses / (period : ℝ)
    if avgLoss = 0 then 100
    else 100 - 100 / (1 + avgGain / avgLoss)

/-- The last element of a price series (`prices[len(prices)-1]`). -/
def lastPrice (prices : List ℝ) : ℝ := prices.getLastD 0

/-- `calculateEMA`: streaming EMA seeded at `prices[0]`; the last price
when the series is shorter than the period. -/
def calculateEMA (prices : List ℝ) (period : ℕ) : ℝ :=
  if prices.length < period then lastPrice prices
  else
    let multiplier : ℝ := 2 / ((period : ℝ) + 1)
    prices.tail.foldl (fun ema p => (p - ema) * multiplier + ema) (prices.headD 0)

/-- `calculateMACD`: `(EMA12 - EMA26) / p_last`, `0` below 26 prices. -/
def calculateMACD (prices : List ℝ) : ℝ :=
  if prices.length < 26 then 0
  else (calculateEMA prices 12 - calculateEMA prices 26) / lastPrice prices

/-- `calculateBollingerPctB`: `%B` over the last `period` prices with a
population standard deviation; `0.5` below `period` prices. -/
def calculateBollingerPctB (prices : List ℝ) (period : ℕ) (numStdDev : ℝ) : ℝ :=
  if prices.length < period then 1/2
  else
    let window := prices.drop (prices.length - period)
    let sma := window.sum / (period : ℝ)
    let stdDev := Real.sqrt ((window.map (fun p => (p - sma) ^ 2)).sum / (period : ℝ))
    let upper := sma + numStdDev * stdDev
    let lower := sma - numStdDev * stdDev
    (lastPrice prices - lower) / (upper - lower)

/-- `getHistorical(i)`: `historicalData[len-1-i]` when in range. -/
def getHistorical (hist : List MarketData) (i : ℕ) : Option MarketData :=
  if i < hist.length then hist.get? (hist.length - 1 - i) else none

/-- `extractFeatures`: the normalized feature vector, per enabled family. -/
def extractFeatures (m : MLState) (cur : MarketData) (hist : List MarketData) : List ℝ :=
  let prices : List ℝ := hist.map (fun d => (d.price : ℝ))
  let priceFeats : List ℝ :=
    if m.features.contains .price then
      (match getHistorical hist 0 with
        | some prev =>
          normalizeFeature (((cur.price : ℝ) - (prev.price : ℝ)) / (prev.price : ℝ)) "price_change"
        | none => 0) ::
      [match getHistorical hist 4 with
        | some prev5 =>
          normalizeFeature (((cur.price : ℝ) - (prev5.price : ℝ)) / (prev5.price : ℝ)) "price_change"
        | none => 0]
    else []
  let volumeFeats : List ℝ :=
    if m.features.contains .volume then
      let recent := (List.range 5).filterMap (getHistorical hist)
      if 0 < recent.length then
        let avgVolume := (recent.map (fun d => (d.volume24h : ℝ))).sum / (recent.length : ℝ)
        [normalizeFeature ((cur.volume24h : ℝ) / avgVolume) "volume_ratio"]
      else [0]
    else []
  let volatilityFeats : List ℝ :=
    if m.features.contains .volatility then
      let volatility := match calculateVolatility prices 10 with
        | .ok v => v
        | .error _ => 1/100
      [normalizeFeature volatility "volatility",
        normalizeFeature (((cur.high24h : ℝ) - (cur.low24h : ℝ)) / (cur.price : ℝ)) "volatility"]
    else []
  let technicalFeats : List ℝ :=
    if m.features.contains .technical then
      [normalizeFeature (calculateRSI prices 14) "rsi",
        normalizeFeature (calculateMACD prices) "macd",
        normalizeFeature (calculateBollingerPctB prices 20 2) "bollinger_pct_b"]
    else []
  priceFeats ++ volumeFeats ++ volatilityFeats ++ technicalFeats

/-- `MetaLabelResult`. -/
structure MetaLabelResult where
  originalSignal : String
  metaLabel : Bool
  confidence : ℝ
  suggestedSize : ℝ

/-- The fixed simple-rules model weights set by `Configure`. -/
def mlWeights : List ℝ := [2/10, 2/10, 3/10, 3/10]

/-- `applyMetaLabeling` (the `simple_rules` model, the only one
`Configure` can produce): logistic score of the weighted features, accept
iff the score clears the threshold, Kelly-inspired suggested size. -/
def applyMetaLabeling (m : MLState) (signal : String) (features : List ℝ)
    (primaryConfidence : ℝ) : Except String MetaLabelResult :=
  let _ := primaryConfidence
  if features.length = 0 then .error "no features provided for meta-labeling"
  else if mlWeights.length < features.length then .error "insufficient weights for features"
  else
    let s := (List.zipWith (fun f w => f * w) features mlWeights).sum
    let metaConfidence := sigmoid (s + -(1/10))
    let metaLabel := decide (metaConfidence ≥ (m.confidenceThreshold : ℝ))
    let suggestedSize : ℝ :=
      if metaLabel then max (1/10) (min 1 ((metaConfidence - (1 - metaConfidence)) * (1/2)))
      else 0
    .ok ⟨signal, metaLabel, metaConfidence, suggestedSize⟩

/-- `MetaLabelingAlgorithm.Process`: at least 10 bars; create and configure
the primary (Sequential Bootstrap) with `AlgorithmConfig{}`; propagate its
failure; pass a `"hold"` primary straight through; otherwise meta-label and
either keep the primary signal with the meta confidence or override to
hold at `0.5`.  The primary's random draw is the `samples` parameter. -/
def mlProcess (m : MLState) (cur : MarketData) (hist : List MarketData) (samples : List ℕ) :
    Except String AlgorithmResultR :=
  if hist.length < 10 then .error "insufficient historical data for meta-labeling"
  else do
    let sbState ← sbConfigure {}
    let primaryResult ← sbProcess sbState hist samples
    if mlPassThrough primaryResult then .ok primaryResult.toR
    else do
      let features := extractFeatures m cur hist
      let mlr ← applyMetaLabeling m primaryResult.signal features (primaryResult.confidence : ℝ)
      if mlr.metaLabel then
        .ok { signal := primaryResult.signal, orderType := primaryResult.orderType,
              limitPrice := primaryResult.limitPrice.map (fun q => (q : ℝ)),
              confidence := mlr.confidence }
      else
        .ok { signal := "hold", orderType := "none", confidence := 1/2 }

/-! ## Position Sizing (`PositionSizingAlgorithm`) -/

/-- The configurable state of `PositionSizingAlgorithm` (the primary
algorithm is always Sequential Bootstrap). -/
structure PSState where
  maxSize : ℚ
  riskFraction : ℚ
  useVolAdjustment : Bool
  volLookback : ℤ
  maxDrawdown : ℚ
  metaLabeling : Bool

/-- `PositionSizingAlgorithm.Configure`: defaults
`(0.2, 0.3, true, 20, 0.1, true)` with range checks on the recognized
options; unknown keys ignored. -/
def psConfigure (cfg : AlgorithmConfig) : Except String PSState := do
  let maxSize : ℚ ←
    match cfg.lookup "max_size" with
    | some v => if v ≤ 0 ∨ v > 1 then .error "max_size must be between 0 and 1" else .ok v
    | none => .ok (2/10)
  let riskFraction : ℚ ←
    match cfg.lookup "risk_fraction" with
    | some v => if v ≤ 0 ∨ v > 1 then .error "risk_fraction must be between 0 and 1" else .ok v
    | none => .ok (3/10)
  let useVolAdjustment : Bool ←
    match cfg.lookup "use_vol_adjustment" with
    | some v => .ok (decide (v > 1/2))
    | none => .ok true
  let volLookback : ℤ ←
    match cfg.lookup "vol_lookback" with
    | some v => if v < 1 then .error "vol_lookback must be at least 1" else .ok (goTrunc v)
    | none => .ok 20
  let maxDrawdown : ℚ ←
    match cfg.lookup "max_drawdown" with
    | some v =>
      if v ≤ 0 ∨ v > 1/2 then .error "max_drawdown must be between 0 and 0.5" else .ok v
    | none => .ok (1/10)
  let metaLabeling : Bool ←
    match cfg.lookup "use_meta_labeling" with
    | some v => .ok (decide (v > 1/2))
    | none => .ok true
  .ok ⟨maxSize, riskFraction, useVolAdjustment, volLookback, maxDrawdown, metaLabeling⟩

/-- `PositionSizeResult`. -/
structure PositionSizeResult where
  signal : String
  size : ℝ
  confidence : ℝ
  volAdjusted : Bool
  riskPerTrade : ℝ

/-- `PositionSizingAlgorithm.calculatePositionSize`: fractional Kelly with
clamped inverse-volatility adjustment and the `max_size` cap. -/
def psCalculatePositionSize (p : PSState) (signal : String)
    (confidence volatility currentPrice : ℝ) : Except String PositionSizeResult :=
  let _ := currentPrice
  if signal ≠ "buy" ∧ signal ≠ "sell" then .error "invalid signal"
  else if confidence ≤ 0 ∨ confidence > 1 then .error "confidence must be between 0 and 1"
  else if volatility ≤ 0 then .error "volatility must be positive"
  else
    let winLossRatio : ℝ := 1
    let kellyFraction := (confidence * winLossRatio - (1 - confidence)) / winLossRatio
    let kellyFraction := kellyFraction * (p.riskFraction : ℝ)
    let kellyFraction := max 0 kellyFraction
    let baselineVol : ℝ := 1/100
    let sized : ℝ × Bool :=
      if p.useVolAdjustment then
        (kellyFraction * min 2 (max (1/2) (1 / (volatility / baselineVol))), true)
      else (kellyFraction, false)
    let size := min (p.maxSize : ℝ) sized.1
    .ok ⟨signal, size, confidence, sized.2, size * volatility⟩

/-- The tail of `PositionSizingAlgorithm.Process` after the (possibly
meta-label-adjusted) confidence is fixed: volatility over the closes, then
sizing; the surfaced result keeps the primary signal and order type. -/
def psFinish (p : PSState) (cur : MarketData) (hist : List MarketData)
    (primaryResult : AlgorithmResult) (confidence : ℝ) : Except String AlgorithmResultR := do
  let prices : List ℝ := hist.map (fun d => (d.price : ℝ))
  let volatility ← calculateVolatility prices p.volLookback.toNat
  let _ ← psCalculatePositionSize p primaryResult.signal confidence volatility (cur.price : ℝ)
  .ok { signal := primaryResult.signal, orderType := primaryResult.orderType,
        limitPrice := primaryResult.limitPrice.map (fun q => (q : ℝ)),
        confidence := confidence }

/-- `PositionSizingAlgorithm.Process`: at least `vol_lookback` bars; create
and configure the primary (Sequential Bootstrap) with `AlgorithmConfig{}`;
propagate its failure; pass a `"hold"` primary through; optionally run
meta-labeling (itself creating a second default-configured Sequential
Bootstrap, whose draw is `mlSamples`), returning its hold outright and
otherwise adopting its confidence; then volatility and sizing. -/
def psProcess (p : PSState) (cur : MarketData) (hist : List MarketData)
    (primarySamples mlSamples : List ℕ) : Except String AlgorithmResultR :=
  if (hist.length : ℤ) < p.volLookback then .error "insufficient historical data"
  else do
    let sbState ← sbConfigure {}
    let primaryResult ← sbProcess sbState hist primarySamples
    if primaryResult.signal = "hold" then .ok primaryResult.toR
    else if p.metaLabeling then do
      let mlState ← mlConfigure {}
      let mlResult ← mlProcess mlState cur hist mlSamples
      if mlResult.signal = "hold" then .ok mlResult
      else psFinish p cur hist primaryResult mlResult.confidence
    else
      psFinish p cur hist primaryResult (primaryResult.confidence : ℝ)

end

/-! # Theorems settling the claims -/

/-- Decidable equality for `Except`, used to evaluate concrete runs. -/
instance exceptDecEq {ε α : Type} [DecidableEq ε] [DecidableEq α] :
    DecidableEq (Except ε α) := fun x y =>
  match x, y with
  | .ok a, .ok b =>
    if h : a = b then .isTrue (by rw [h]) else .isFalse (fun hc => h (by injection hc))
  | .error a, .error b =>
    if h : a = b then .isTrue (by rw [h]) else .isFalse (fun hc => h (by injection hc))
  | .ok _, .error _ => .isFalse (fun hc => Except.noConfusion hc)
  | .error _, .ok _ => .isFalse (fun hc => Except.noConfusion hc)

/-! ## C8: fractional-differentiation weights -/

lemma getWeights_getD (d : ℚ) {k n : ℕ} (h : k < n) :
    (GetWeights d n).getD k 0 = fracWeight d k := by
  simp [GetWeights, List.getD_eq_getElem?_getD, List.getElem?_map, List.getElem?_range h]

lemma fracWeight_succ (d : ℚ) (k : ℕ) :
    fracWeight d (k + 1) = fracWeight d k * (((k : ℚ) + 1) - 1 - d) / ((k : ℚ) + 1) := by
  show fracWeight d k * (-d + ((k : ℚ) + 1) - 1) / ((k : ℚ) + 1) = _
  ring_nf

lemma fracWeight_abs_step (d : ℚ) (k : ℕ) (hd0 : 0 ≤ d) (hd1 : d ≤ 1) :
    |fracWeight d (k + 1)| ≤ |fracWeight d k| := by
  have hk1 : (0 : ℚ) < (k : ℚ) + 1 := by positivity
  rw [fracWeight_succ, abs_div, abs_mul, abs_of_pos hk1]
  have habs : |((k : ℚ) + 1) - 1 - d| ≤ (k : ℚ) + 1 := by
    rw [abs_le]
    constructor
    · have : (0 : ℚ) ≤ (k : ℚ) := Nat.cast_nonneg k
      linarith
    · have : (0 : ℚ) ≤ (k : ℚ) := Nat.cast_nonneg k
      linarith
  calc |fracWeight d k| * |((k : ℚ) + 1) - 1 - d| / ((k : ℚ) + 1)
      ≤ |fracWeight d k| * ((k : ℚ) + 1) / ((k : ℚ) + 1) := by
        gcongr
    _ = |fracWeight d k| := by field_simp

lemma fracWeight_one_eq_zero : ∀ k, 2 ≤ k → fracWeight 1 k = 0 := by
  intro k hk
  induction k with
  | zero => omega
  | succ m ih =>
    rcases Nat.lt_or_ge m 2 with hm | hm
    · interval_cases m
      · omega
      · show fracWeight 1 1 * (-1 + ((1 : ℚ) + 1) - 1) / ((1 : ℚ) + 1) = 0
        norm_num
    · show fracWeight 1 m * (-1 + ((m : ℚ) + 1) - 1) / ((m : ℚ) + 1) = 0
      rw [ih hm]
      ring

/-- C8: for `d ∈ [0,1]` and `n ≥ 1`, `GetWeights(d, n)` starts at exactly
`1`, obeys the recurrence `w[k] = w[k-1]·(k-1-d)/k` at every `k ≥ 1`, the
absolute value of the last weight is non-increasing as a function of `n`,
and with `d = 1` every weight beyond index 1 is exactly zero. -/
theorem getWeights_spec (d : ℚ) (n : ℕ) (hd0 : 0 ≤ d) (hd1 : d ≤ 1) (hn : 1 ≤ n) :
    (GetWeights d n).getD 0 0 = 1
    ∧ (∀ k, 1 ≤ k → k < n →
        (GetWeights d n).getD k 0 =
          (GetWeights d n).getD (k - 1) 0 * ((k : ℚ) - 1 - d) / (k : ℚ))
    ∧ |(GetWeights d (n + 1)).getD n 0| ≤ |(GetWeights d n).getD (n - 1) 0|
    ∧ (d = 1 → ∀ k, 2 ≤ k → k < n → (GetWeights d n).getD k 0 = 0) := by
  refine ⟨?_, ?_, ?_, ?_⟩
  · rw [getWeights_getD d (Nat.lt_of_lt_of_le Nat.zero_lt_one hn)]
    rfl
  · intro k hk1 hkn
    obtain ⟨m, rfl⟩ : ∃ m, k = m + 1 := ⟨k - 1, (Nat.succ_pred_eq_of_pos hk1).symm⟩
    simp only [Nat.add_sub_cancel]
    rw [getWeights_getD d hkn, getWeights_getD d (Nat.lt_of_succ_lt hkn)]
    simpa [Nat.cast_add, Nat.cast_one] using fracWeight_succ d m
  · obtain ⟨m, rfl⟩ : ∃ m, n = m + 1 := ⟨n - 1, (Nat.succ_pred_eq_of_pos hn).symm⟩
    simp only [Nat.add_sub_cancel]
    rw [getWeights_getD d (Nat.lt_succ_self (m + 1)), getWeights_getD d (Nat.lt_succ_self m)]
    exact fracWeight_abs_step d m hd0 hd1
  · rintro rfl k hk2 hkn
    rw [getWeights_getD 1 hkn]
    exact fracWeight_one_eq_zero k hk2

/-- Witness for `getWeights_spec` at `d = 1/2`, `n = 3`. -/
theorem getWeights_spec_witness :
    (0 ≤ (1/2 : ℚ)) ∧ ((1/2 : ℚ) ≤ 1) ∧ 1 ≤ 3
    ∧ ((GetWeights (1/2) 3).getD 0 0 = 1
      ∧ (∀ k, 1 ≤ k → k < 3 →
          (GetWeights (1/2) 3).getD k 0 =
            (GetWeights (1/2) 3).getD (k - 1) 0 * ((k : ℚ) - 1 - (1/2)) / (k : ℚ))
      ∧ |(GetWeights (1/2) (3 + 1)).getD 3 0| ≤ |(GetWeights (1/2) 3).getD (3 - 1) 0|
      ∧ ((1/2 : ℚ) = 1 → ∀ k, 2 ≤ k → k < 3 → (GetWeights (1/2) 3).getD k 0 = 0)) :=
  ⟨by norm_num, by norm_num, by norm_num,
    getWeights_spec (1/2) 3 (by norm_num) (by norm_num) (by norm_num)⟩

/-! ## C5: purged k-fold cross-validation -/

lemma purgedTestSize_of_dvd (k m : ℕ) (hk : 1 ≤ k) :
    purgedTestSize (k * m) (1 / (k : ℚ)) = m := by
  have hk0 : ((k : ℚ)) ≠ 0 := by positivity
  have hcast : (((k * m : ℕ) : ℚ)) * (1 / (k : ℚ)) = (m : ℚ) := by
    push_cast
    field_simp
  rw [purgedTestSize, hcast, Int.ceil_natCast, Int.toNat_natCast]

lemma purgedKFoldTests_getD_of_dvd (k m i : ℕ) (hk : 1 ≤ k) (hm : 1 ≤ m) (hi : i < k) :
    (purgedKFoldTests (k * m) k (1 / (k : ℚ))).getD i [] =
      List.insertionSort (· ≤ ·) (List.range' (i * m) m) := by
  have hstartlt : i * m < k * m := by
    have : i + 1 ≤ k := hi
    calc i * m < i * m + m := by omega
      _ = (i + 1) * m := by ring
      _ ≤ k * m := Nat.mul_le_mul_right m hi
  have hmod : (i * m) % (k * m) = i * m := Nat.mod_eq_of_lt hstartlt
  have hfit : i * m % (k * m) + m ≤ k * m := by
    rw [hmod]
    calc i * m + m = (i + 1) * m := by ring
      _ ≤ k * m := Nat.mul_le_mul_right m hi
  have hfit2 : i * m + m ≤ k * m := by rw [hmod] at hfit; exact hfit
  simp only [purgedKFoldTests, purgedTestSize_of_dvd k m hk,
    List.getD_eq_getElem?_getD, List.getElem?_map, List.getElem?_range hi]
  simp [hmod]
  intro hcontra
  exact absurd hcontra (by omega)

lemma purgedKFold_mem_test_iff (k m i j : ℕ) (hk : 1 ≤ k) (hm : 1 ≤ m) (hi : i < k) :
    (j ∈ (purgedKFoldTests (k * m) k (1 / (k : ℚ))).getD i [] ↔
      i * m ≤ j ∧ j < (i + 1) * m) := by
  rw [purgedKFoldTests_getD_of_dvd k m i hk hm hi,
    (List.perm_insertionSort _ _).mem_iff, List.mem_range'_1,
    show (i + 1) * m = i * m + m from by ring]

/-- C5 (amended): when `k` divides `n`, `PurgedKFold(n, k, 0)` produces `k`
folds, every index of `[0, n)` appears in exactly one fold's test shard,
each test shard has exactly `n / k` indices, and every fold's train and
test sets are disjoint. -/
theorem purgedKFold_partition_of_dvd (n k : ℕ) (hk : 1 ≤ k) (hn : 1 ≤ n) (hdvd : k ∣ n) :
    ∃ folds, PurgedKFold n k 0 = .ok folds
      ∧ folds.length = k
      ∧ (∀ fold ∈ folds, ∀ j ∈ fold.trainIndices, j ∉ fold.testIndices)
      ∧ (∀ fold ∈ folds, fold.testIndices.length = n / k)
      ∧ (∀ j, j < n → folds.countP (fun fold => fold.testIndices.contains j) = 1) := by
  obtain ⟨m, rfl⟩ := hdvd
  have hm : 1 ≤ m := by
    rcases Nat.eq_zero_or_pos m with h | h
    · subst h; omega
    · exact h
  have hn0 : k * m ≠ 0 := by positivity
  have hdivkm : k * m / k = m := Nat.mul_div_cancel_left m hk
  refine ⟨purgedKFoldFoldsOf (k * m)
    (purgedKFoldTests (k * m) k (1 / ((k : ℕ) : ℚ))), ?_, ?_, ?_, ?_, ?_⟩
  · simp [PurgedKFold, hn0]
  · simp [purgedKFoldFoldsOf, purgedKFoldTests]
  · intro fold hfold j hj
    simp only [purgedKFoldFoldsOf, List.mem_map] at hfold
    obtain ⟨test, _, rfl⟩ := hfold
    simp only [List.mem_filter, decide_eq_true_eq] at hj
    intro hmem
    exact hj.2 (by simpa [List.elem_iff] using hmem)
  · intro fold hfold
    simp only [purgedKFoldFoldsOf, List.mem_map] at hfold
    obtain ⟨test, htest, rfl⟩ := hfold
    simp only [purgedKFoldTests, List.mem_map, List.mem_range] at htest
    obtain ⟨i, hi, rfl⟩ := htest
    rw [hdivkm]
    simp only [purgedTestSize_of_dvd k m hk]
    split
    · rw [(List.perm_insertionSort _ _).length_eq, List.length_range']
    · rename_i hcontra
      exfalso
      have hstartlt : i * m < k * m := by
        calc i * m < i * m + m := by omega
          _ = (i + 1) * m := by ring
          _ ≤ k * m := Nat.mul_le_mul_right m hi
      rw [Nat.mod_eq_of_lt hstartlt] at hcontra
      have heq : i * m + m = (i + 1) * m := by ring
      have hle : (i + 1) * m ≤ k * m := Nat.mul_le_mul_right m hi
      omega
  · intro j hj
    have hjm : j / m < k := (Nat.div_lt_iff_lt_mul hm).mpr (by omega)
    have hstep1 : (purgedKFoldFoldsOf (k * m)
          (purgedKFoldTests (k * m) k (1 / (k : ℚ)))).countP
            (fun fold => fold.testIndices.contains j)
        = (purgedKFoldTests (k * m) k (1 / (k : ℚ))).countP (fun t => t.contains j) := by
      rw [purgedKFoldFoldsOf, List.countP_map]
      rfl
    have htests : purgedKFoldTests (k * m) k (1 / (k : ℚ)) =
        (List.range k).map (fun i =>
          (purgedKFoldTests (k * m) k (1 / (k : ℚ))).getD i []) := by
      apply List.ext_getElem
      · simp [purgedKFoldTests]
      · intro i h1 h2
        simp only [List.getElem_map, List.getElem_range]
        rw [List.getD_eq_getElem?_getD, List.getElem?_eq_getElem h1]
        rfl
    have hstep2 : (purgedKFoldTests (k * m) k (1 / (k : ℚ))).countP (fun t => t.contains j)
        = (List.range k).countP (fun i =>
            ((purgedKFoldTests (k * m) k (1 / (k : ℚ))).getD i []).contains j) := by
      conv_lhs => rw [htests]
      rw [List.countP_map]
      rfl
    have hiff : ∀ i ∈ List.range k,
        ((((purgedKFoldTests (k * m) k (1 / (k : ℚ))).getD i []).contains j) = true
          ↔ (i == j / m) = true) := by
      intro i hik
      rw [List.mem_range] at hik
      have hc : (((purgedKFoldTests (k * m) k (1 / (k : ℚ))).getD i []).contains j) = true
          ↔ j ∈ (purgedKFoldTests (k * m) k (1 / (k : ℚ))).getD i [] := by
        simp [List.elem_iff]
      rw [hc, beq_iff_eq, purgedKFold_mem_test_iff k m i j hk hm hik]
      constructor
      · rintro ⟨h1, h2⟩
        exact (Nat.div_eq_of_lt_le h1 (by simpa [Nat.succ_mul] using h2)).symm
      · rintro rfl
        exact ⟨Nat.div_mul_le_self j m, (Nat.div_lt_iff_lt_mul hm).mp (Nat.lt_succ_self _)⟩
    rw [hstep1, hstep2, List.countP_congr hiff]
    have := List.count_eq_one_of_mem (List.nodup_range k) (List.mem_range.mpr hjm)
    simpa [List.count] using this

/-- Witness for `purgedKFold_partition_of_dvd` at `n = 100`, `k = 5`
(spec scenario 4). -/
theorem purgedKFold_partition_of_dvd_witness :
    1 ≤ 5 ∧ 1 ≤ 100 ∧ 5 ∣ 100
    ∧ ∃ folds, PurgedKFold 100 5 0 = .ok folds
      ∧ folds.length = 5
      ∧ (∀ fold ∈ folds, ∀ j ∈ fold.trainIndices, j ∉ fold.testIndices)
      ∧ (∀ fold ∈ folds, fold.testIndices.length = 100 / 5)
      ∧ (∀ j, j < 100 → folds.countP (fun fold => fold.testIndices.contains j) = 1) :=
  ⟨by norm_num, by norm_num, by norm_num,
    purgedKFold_partition_of_dvd 100 5 (by norm_num) (by norm_num) (by norm_num)⟩

lemma purgedKFoldTests_3_2 :
    purgedKFoldTests 3 2 (1 / ((2 : ℕ) : ℚ)) = [[0, 1], [0, 2]] := by
  have hm : purgedTestSize 3 (1 / ((2 : ℕ) : ℚ)) = 2 := by
    rw [purgedTestSize, show ((3 : ℕ) : ℚ) * (1 / ((2 : ℕ) : ℚ)) = 3/2 by push_cast; ring,
      show ⌈(3 : ℚ)/2⌉ = 2 by rw [Int.ceil_eq_iff]; constructor <;> norm_num]
    rfl
  simp only [purgedKFoldTests, hm]
  decide

/-- C5 counterexample: with `n = 3` samples and `k = 2` folds (where `k`
does not divide `n`), the wrap-around shard construction puts index `0`
into the test sets of both folds, so "every index appears in exactly one
fold's test set" fails. -/
theorem purgedKFold_not_partition :
    (PurgedKFold 3 2 0).map
        (fun folds => folds.countP (fun fold => fold.testIndices.contains 0)) = .ok 2
      ∧ (2 : ℕ) ≠ 1 := by
  constructor
  · rw [PurgedKFold]
    simp only [show (3 : ℕ) ≠ 0 by norm_num, if_neg, purgedKFoldFoldsOf, purgedKFoldTests_3_2]
    decide
  · decide

/-! ## C6: triple barrier at the spec's concrete input -/

/-- C6 (evaluation of the code at the claimed input): on prices
`[100, 102, 104, 106, 108, 110]` with daily times, `σ = 0.01`,
`profitTaking = 3`, `stopLoss = 2`, `timeHorizon = 5`, `ApplyTripleBarrier`
returns five results and the first has `BarrierHit = upper` but
`Label = -1` (sell), not `+1`: the direction seed at entry index `0` is
hold (there is no prior return) and the upper-barrier hit maps every
non-buy seed to sell.  The repository's own test
(`TestApplyTripleBarrier`, "Uptrend hits upper barrier") expects `+1` on
exactly this input. -/
theorem tripleBarrier_first_label_is_sell :
    ApplyTripleBarrier [100, 102, 104, 106, 108, 110] [0, 1, 2, 3, 4, 5] (1/100) ⟨3, 2, 5, 20⟩
      = .ok [⟨-1, 2, 104, "upper", 0, 100⟩, ⟨1, 3, 106, "upper", 1, 102⟩,
          ⟨1, 4, 108, "upper", 2, 104⟩, ⟨1, 5, 110, "upper", 3, 106⟩,
          ⟨1, 5, 110, "time", 4, 108⟩]
    ∧ [(⟨-1, 2, 104, "upper", 0, 100⟩ : BarrierResult), ⟨1, 3, 106, "upper", 1, 102⟩,
        ⟨1, 4, 108, "upper", 2, 104⟩, ⟨1, 5, 110, "upper", 3, 106⟩,
        ⟨1, 5, 110, "time", 4, 108⟩].length = 5
    ∧ (⟨-1, 2, 104, "upper", 0, 100⟩ : BarrierResult).barrierHit = "upper"
    ∧ (⟨-1, 2, 104, "upper", 0, 100⟩ : BarrierResult).label = -1
    ∧ (-1 : ℤ) ≠ 1 :=
  ⟨by with_unfolding_all rfl, rfl, rfl, rfl, by decide⟩

/-! ## C7: the ensemble combiner -/

/-- C7: combining `{buy@0.8, buy@0.7, sell@0.4}` yields signal `buy` with
normalized weight `1.5/1.9 = 15/19` and no hold override; and in general,
whenever the arg-max winner over the normalized weights is `buy` or `sell`,
the combiner overrides it to hold with confidence `(Σ_buy + Σ_sell)/2`
exactly when `|Σ_buy - Σ_sell| < 0.2·Σ_all`. -/
theorem combineResults_spec :
    (combineResults [⟨"buy", "market", none, 8/10⟩, ⟨"buy", "market", none, 7/10⟩,
        ⟨"sell", "market", none, 4/10⟩] = .ok ⟨"buy", "limit", none, 15/19⟩
      ∧ (15 : ℚ)/19 = (8/10 + 7/10) / (8/10 + 7/10 + 4/10))
    ∧ (∀ (r1 r2 : AlgorithmResult) (rest : List AlgorithmResult) (out : AlgorithmResult),
        combineResults (r1 :: r2 :: rest) = .ok out →
        ((combinePick (fun tag =>
            if 0 < totalConfidenceOf (r1 :: r2 :: rest) then
              signalWeightSum (r1 :: r2 :: rest) tag / totalConfidenceOf (r1 :: r2 :: rest)
            else signalWeightSum (r1 :: r2 :: rest) tag)
          (distinctSignals (r1 :: r2 :: rest))).1 = "buy"
          ∨ (combinePick (fun tag =>
              if 0 < totalConfidenceOf (r1 :: r2 :: rest) then
                signalWeightSum (r1 :: r2 :: rest) tag / totalConfidenceOf (r1 :: r2 :: rest)
              else signalWeightSum (r1 :: r2 :: rest) tag)
            (distinctSignals (r1 :: r2 :: rest))).1 = "sell") →
        ((out.signal = "hold"
            ∧ out.confidence = (signalWeightSum (r1 :: r2 :: rest) "buy"
                + signalWeightSum (r1 :: r2 :: rest) "sell") / 2)
          ↔ |signalWeightSum (r1 :: r2 :: rest) "buy"
              - signalWeightSum (r1 :: r2 :: rest) "sell"|
              < (2/10) * totalConfidenceOf (r1 :: r2 :: rest))) := by
  constructor
  · exact ⟨by with_unfolding_all rfl, by norm_num⟩
  · intro r1 r2 rest out h hwin
    simp only [combineResults, Except.ok.injEq] at h
    subst h
    by_cases hclose : |signalWeightSum (r1 :: r2 :: rest) "buy"
        - signalWeightSum (r1 :: r2 :: rest) "sell"|
        < 2/10 * totalConfidenceOf (r1 :: r2 :: rest)
    · rw [if_pos (And.intro hclose hwin)]
      simpa using hclose
    · rw [if_neg (not_and_of_not_left _ hclose)]
      constructor
      · rintro ⟨h1, _⟩
        rcases hwin with hb | hs
        · exact absurd (hb.symm.trans h1) (by decide)
        · exact absurd (hs.symm.trans h1) (by decide)
      · intro hc
        exact absurd hc hclose

/-- Witness for the general clause of `combineResults_spec`, instantiated
at the spec's three-result scenario. -/
theorem combineResults_spec_witness :
    (combineResults [⟨"buy", "market", none, 8/10⟩, ⟨"buy", "market", none, 7/10⟩,
        ⟨"sell", "market", none, 4/10⟩] = .ok ⟨"buy", "limit", none, 15/19⟩)
    ∧ (((⟨"buy", "limit", none, 15/19⟩ : AlgorithmResult).signal = "hold"
        ∧ (⟨"buy", "limit", none, 15/19⟩ : AlgorithmResult).confidence =
          (signalWeightSum [⟨"buy", "market", none, 8/10⟩, ⟨"buy", "market", none, 7/10⟩,
              ⟨"sell", "market", none, 4/10⟩] "buy"
            + signalWeightSum [⟨"buy", "market", none, 8/10⟩, ⟨"buy", "market", none, 7/10⟩,
              ⟨"sell", "market", none, 4/10⟩] "sell") / 2)
      ↔ |signalWeightSum [⟨"buy", "market", none, 8/10⟩, ⟨"buy", "market", none, 7/10⟩,
            ⟨"sell", "market", none, 4/10⟩] "buy"
          - signalWeightSum [⟨"buy", "market", none, 8/10⟩, ⟨"buy", "market", none, 7/10⟩,
            ⟨"sell", "market", none, 4/10⟩] "sell"|
          < (2/10) * totalConfidenceOf [⟨"buy", "market", none, 8/10⟩,
            ⟨"buy", "market", none, 7/10⟩, ⟨"sell", "market", none, 4/10⟩]) :=
  ⟨by with_unfolding_all rfl,
    combineResults_spec.2 ⟨"buy", "market", none, 8/10⟩ ⟨"buy", "market", none, 7/10⟩
      [⟨"sell", "market", none, 4/10⟩] ⟨"buy", "limit", none, 15/19⟩
      (by with_unfolding_all rfl) (Or.inl (by with_unfolding_all rfl))⟩

/-! ## C4: atomicity of `UpdateRiskParameters` -/

lemma validateAll_error_of_mem {params : List (String × RVal)} {kv : String × RVal}
    (hmem : kv ∈ params) {e : String} (hkv : validateRiskParam kv = .error e) :
    ∃ e2, validateAllRiskParams params = .error e2 := by
  induction params with
  | nil => cases hmem
  | cons a rest ih =>
    rcases List.mem_cons.mp hmem with rfl | hmem2
    · exact ⟨e, by rw [validateAllRiskParams, hkv]⟩
    · rw [validateAllRiskParams]
      cases ha : validateRiskParam a with
      | error e3 => exact ⟨e3, rfl⟩
      | ok a2 =>
        obtain ⟨e2, he2⟩ := ih hmem2
        rw [he2]
        exact ⟨e2, rfl⟩

lemma validateAll_ok_of_forall {params : List (String × RVal)}
    (h : ∀ kv ∈ params, ∃ kv2, validateRiskParam kv = .ok kv2) :
    ∃ out, validateAllRiskParams params = .ok out := by
  induction params with
  | nil => exact ⟨[], rfl⟩
  | cons a rest ih =>
    obtain ⟨a2, ha2⟩ := h a (List.mem_cons_self a rest)
    obtain ⟨out, hout⟩ := ih (fun kv hkv => h kv (List.mem_cons_of_mem a hkv))
    exact ⟨a2 :: out, by rw [validateAllRiskParams, ha2, hout]⟩

/-- C4: `UpdateRiskParameters` is atomic.  If any entry of the update map
fails validation — in particular every unknown key does — the call returns
an error and the stored parameters are exactly what they were before; only
when every entry validates is the stored map changed (to the fold of the
coerced entries over it). -/
theorem updateRiskParameters_atomic (stored params : List (String × RVal)) :
    ((∃ kv ∈ params, ∃ e, validateRiskParam kv = .error e) →
      ∃ e2, UpdateRiskParameters stored params = (stored, some e2))
    ∧ ((∀ kv ∈ params, ∃ kv2, validateRiskParam kv = .ok kv2) →
      ∃ coerced, validateAllRiskParams params = .ok coerced
        ∧ UpdateRiskParameters stored params =
          (coerced.foldl (fun acc kv => setAssoc acc kv.1 kv.2) stored, none))
    ∧ (∀ k v, k ≠ "max_position_size_percent" → k ≠ "max_daily_drawdown" →
        k ≠ "stop_loss_percent" → k ≠ "take_profit_percent" → k ≠ "max_trades_per_day" →
        ∃ e, validateRiskParam (k, v) = .error e) := by
  refine ⟨?_, ?_, ?_⟩
  · rintro ⟨kv, hmem, e, hkv⟩
    obtain ⟨e2, he2⟩ := validateAll_error_of_mem hmem hkv
    exact ⟨e2, by rw [UpdateRiskParameters, he2]⟩
  · intro h
    obtain ⟨out, hout⟩ := validateAll_ok_of_forall h
    exact ⟨out, hout, by rw [UpdateRiskParameters, hout]⟩
  · intro k v h1 h2 h3 h4 h5
    refine ⟨"unknown parameter", ?_⟩
    rw [validateRiskParam.eq_def]
    simp [h1, h2, h3, h4, h5]

/-- Witness for `updateRiskParameters_atomic`: an update map carrying an
unknown key fails and leaves the initial parameters untouched. -/
theorem updateRiskParameters_atomic_witness :
    (∃ kv ∈ ([("bogus", RVal.rfloat 1)] : List (String × RVal)),
      ∃ e, validateRiskParam kv = .error e)
    ∧ (∃ e2, UpdateRiskParameters initialRiskParameters [("bogus", RVal.rfloat 1)] =
        (initialRiskParameters, some e2)) :=
  ⟨⟨("bogus", RVal.rfloat 1), List.mem_singleton.mpr rfl,
      "unknown parameter", by with_unfolding_all rfl⟩,
    (updateRiskParameters_atomic initialRiskParameters [("bogus", RVal.rfloat 1)]).1
      ⟨("bogus", RVal.rfloat 1), List.mem_singleton.mpr rfl,
        "unknown parameter", by with_unfolding_all rfl⟩⟩

/-! ## C3: the buy path of the `ExecuteTrade` gate -/

lemma goTrunc_of_nonneg {q : ℚ} (h : 0 ≤ q) : goTrunc q = ⌊q⌋ := if_pos h

/-- C3: `ExecuteTrade` on a non-nil buy signal for a symbol with known
market data (positive price, non-negative notional): with an existing long
position the call is a no-op reported as success; otherwise it issues a
buy order for exactly `⌊totalValue · (max_position_size_percent/100) /
price⌋` shares. -/
theorem executeTrade_buy (st : TAState) (sig : TradeSignal) (md : MarketData)
    (hmd : assocFind st.marketData sig.symbol = some md)
    (hsig : sig.signal = "buy")
    (hprice : 0 < md.price)
    (hnotional : 0 ≤ st.portfolio.totalValue * (maxPosSizeOf st / 100)) :
    (∀ p, assocFind st.portfolio.positions sig.symbol = some p → 0 < p.quantity →
      ExecuteTrade st (some sig) = .ok none)
    ∧ ((∀ p, assocFind st.portfolio.positions sig.symbol = some p → p.quantity ≤ 0) →
      ∃ o, ExecuteTrade st (some sig) = .ok (some o) ∧ o.side = "buy"
        ∧ o.orderType = sig.orderType
        ∧ o.qty = ((⌊st.portfolio.totalValue * (maxPosSizeOf st / 100) / md.price⌋ : ℤ) : ℚ)) := by
  have hqty : calculatePositionSize (st.portfolio.totalValue * (maxPosSizeOf st / 100))
      md.price true
      = ((⌊st.portfolio.totalValue * (maxPosSizeOf st / 100) / md.price⌋ : ℤ) : ℚ) := by
    rw [calculatePositionSize, if_neg (not_le.mpr hprice), if_pos rfl,
      goTrunc_of_nonneg (div_nonneg hnotional hprice.le)]
  constructor
  · intro p hp hq
    simp only [ExecuteTrade, hmd, hsig, hp, eq_self_iff_true, if_true]
    rw [if_pos hq]
  · intro hple
    cases hpos : assocFind st.portfolio.positions sig.symbol with
    | none =>
      refine ⟨⟨"buy", calculatePositionSize
          (st.portfolio.totalValue * (maxPosSizeOf st / 100)) md.price true,
          sig.orderType, sig.limitPrice.getD 0⟩, ?_, rfl, rfl, hqty⟩
      simp only [ExecuteTrade, hmd, hsig, hpos, eq_self_iff_true, if_true]
    | some p =>
      refine ⟨⟨"buy", calculatePositionSize
          (st.portfolio.totalValue * (maxPosSizeOf st / 100)) md.price true,
          sig.orderType, sig.limitPrice.getD 0⟩, ?_, rfl, rfl, hqty⟩
      simp only [ExecuteTrade, hmd, hsig, hpos, eq_self_iff_true, if_true]
      rw [if_neg (not_lt.mpr (hple p hpos))]

/-- Witness for `executeTrade_buy`: `totalValue = 10000`,
`max_position_size_percent = 5`, `price = 100`, no existing position —
the gate issues a buy for exactly 5 shares. -/
theorem executeTrade_buy_witness :
    (assocFind (⟨[("AAPL", ⟨100, 0, 0, 0, 0⟩)], ⟨0, [], 10000⟩,
        initialRiskParameters⟩ : TAState).marketData "AAPL" = some ⟨100, 0, 0, 0, 0⟩)
    ∧ ((⟨"AAPL", "buy", "market", none⟩ : TradeSignal).signal = "buy")
    ∧ ((0 : ℚ) < 100)
    ∧ (∃ o, ExecuteTrade ⟨[("AAPL", ⟨100, 0, 0, 0, 0⟩)], ⟨0, [], 10000⟩,
          initialRiskParameters⟩ (some ⟨"AAPL", "buy", "market", none⟩) = .ok (some o)
        ∧ o.side = "buy" ∧ o.qty = 5) := by
  have hstate : ∀ p, assocFind ((⟨[("AAPL", ⟨100, 0, 0, 0, 0⟩)], ⟨0, [], 10000⟩,
      initialRiskParameters⟩ : TAState)).portfolio.positions "AAPL" = some p →
      p.quantity ≤ 0 := by
    intro p hp
    exact absurd hp (by simp [assocFind])
  have hmps : maxPosSizeOf ⟨[("AAPL", ⟨100, 0, 0, 0, 0⟩)], ⟨0, [], 10000⟩,
      initialRiskParameters⟩ = 5 := by with_unfolding_all rfl
  obtain ⟨o, ho, hside, _, hq⟩ :=
    (executeTrade_buy ⟨[("AAPL", ⟨100, 0, 0, 0, 0⟩)], ⟨0, [], 10000⟩, initialRiskParameters⟩
      ⟨"AAPL", "buy", "market", none⟩ ⟨100, 0, 0, 0, 0⟩
      (by with_unfolding_all rfl) rfl (by norm_num)
      (by rw [hmps]; norm_num)).2 hstate
  refine ⟨by with_unfolding_all rfl, rfl, by norm_num, o, ho, hside, ?_⟩
  rw [hq, hmps]
  norm_num

/-! ## C9: `Configure` and unknown options -/

/-- C9 counterexample: `Configure` does not reject unknown options.  The
CUSUM filter's `Configure` succeeds on a config whose `AdditionalParams`
holds only an unrecognized key, and so does Purged CV's (returning its
defaults), contradicting "Configure returns a validation failure for any
unknown option". -/
theorem configure_accepts_unknown_option :
    cusumConfigure ⟨1, 1/50⟩ { additionalParams := [("not_an_option", 1)] } = .ok ⟨1, 1/50⟩
    ∧ pcvConfigure { additionalParams := [("mystery_option", 3)] } = .ok ⟨5, 1/100, 3/10⟩ :=
  ⟨by with_unfolding_all rfl, by with_unfolding_all rfl⟩

/-- C9 (amended): `Configure` validates only the recognized options.
CUSUM's `Configure` never fails at all (no range checks, unknown keys
ignored); Purged CV's `Configure` rejects an out-of-range recognized
option (`num_folds < 2`) but silently accepts configs whose
`AdditionalParams` contain none of its three recognized keys; the shared
`BaseAlgorithm.Configure` accepts everything. -/
theorem configure_validation_amended :
    (∀ (s : CUSUMState) (cfg : AlgorithmConfig), ∃ s2, cusumConfigure s cfg = .ok s2)
    ∧ (∀ (cfg : AlgorithmConfig) (v : ℚ), cfg.lookup "num_folds" = some v → v < 2 →
        ∃ e, pcvConfigure cfg = .error e)
    ∧ (∀ cfg : AlgorithmConfig, cfg.lookup "num_folds" = none →
        cfg.lookup "embargo_pct" = none → cfg.lookup "test_size" = none →
        pcvConfigure cfg = .ok ⟨5, 1/100, 3/10⟩)
    ∧ (∀ cfg : AlgorithmConfig, baseConfigure cfg = .ok cfg) := by
  refine ⟨?_, ?_, ?_, fun _ => rfl⟩
  · intro s cfg
    exact ⟨_, rfl⟩
  · intro cfg v h hv
    refine ⟨"num_folds must be at least 2", ?_⟩
    simp only [pcvConfigure, h, if_pos hv]
    rfl
  · intro cfg h1 h2 h3
    simp only [pcvConfigure, h1, h2, h3]
    rfl

/-- Witness for `configure_validation_amended`: CUSUM accepts the empty
config, and Purged CV rejects `num_folds = 1`. -/
theorem configure_validation_amended_witness :
    ((AlgorithmConfig.mk 0 0 0 0 0 [("num_folds", 1)]).lookup "num_folds" = some 1
      ∧ (1 : ℚ) < 2)
    ∧ (∃ s2, cusumConfigure ⟨1, 1/50⟩ {} = .ok s2)
    ∧ (∃ e, pcvConfigure (AlgorithmConfig.mk 0 0 0 0 0 [("num_folds", 1)]) = .error e) :=
  ⟨⟨by with_unfolding_all rfl, by norm_num⟩,
    configure_validation_amended.1 ⟨1, 1/50⟩ {},
    configure_validation_amended.2.1 (AlgorithmConfig.mk 0 0 0 0 0 [("num_folds", 1)]) 1
      (by with_unfolding_all rfl) (by norm_num)⟩

/-! ## C2: Sequential Bootstrap under its default configuration -/

lemma exceptBind_ok {α β : Type} (a : α) (f : α → Except String β) :
    ((Except.ok a : Except String α) >>= f) = f a := rfl

lemma exceptBind_error {α β : Type} (e : String) (f : α → Except String β) :
    ((Except.error e : Except String α) >>= f) = .error e := rfl

lemma sbConfigure_empty : sbConfigure {} = .ok sbDefault := by with_unfolding_all rfl

lemma sbProcess_sbDefault_errors (hist : List MarketData) (samples : List ℕ) :
    ∃ e, sbProcess sbDefault hist samples = .error e := by
  simp only [sbProcess, sbDefault, effSampleLen]
  by_cases h : (hist.length : ℤ) < 20
  · rw [if_pos h]
    exact ⟨_, rfl⟩
  · rw [if_neg h]
    have hlen : 20 ≤ hist.length := by exact_mod_cast not_lt.mp h
    by_cases hgt : (hist.length : ℤ) > 20
    · rw [if_pos hgt]
      have hdrop : (hist.drop (hist.length - Int.toNat 20)).length = 20 := by
        rw [List.length_drop, show Int.toNat 20 = 20 from rfl]
        omega
      rw [if_neg (by rw [hdrop]; norm_num)]
      rw [if_pos (by rw [hdrop]; norm_num)]
      exact ⟨_, rfl⟩
    · rw [if_neg hgt]
      have h20 : hist.length = 20 := by
        have : (hist.length : ℤ) ≤ 20 := not_lt.mp hgt
        have : hist.length ≤ 20 := by exact_mod_cast this
        omega
      rw [if_neg (by rw [h20]; norm_num)]
      rw [if_pos (by rw [h20]; norm_num)]
      exact ⟨_, rfl⟩

/-- C2: `Configure(AlgorithmConfig{})` gives Sequential Bootstrap its
defaults `lookback_period = 20`, `sample_size = 50`, `use_sequential =
true`; under these, `Process` errors on every input with at least 20
historical points (the indicator matrix has exactly 20 columns and
`seqBootstrap` rejects a sample length greater than the column count) —
in fact on every input; and Meta-Labeling and Position Sizing, which
create and configure this primary with the empty config on every call
(for any of their own states `m`, `p`), propagate the failure and never
return a result. -/
theorem seqBootstrapDefault_always_errors (m : MLState) (p : PSState) (cur : MarketData)
    (hist : List MarketData) (s1 s2 : List ℕ) (hlen : 20 ≤ hist.length) :
    sbConfigure {} = .ok sbDefault
    ∧ (∃ e, sbProcess sbDefault hist s1 = .error e)
    ∧ (∃ e, mlProcess m cur hist s1 = .error e)
    ∧ (∃ e, psProcess p cur hist s1 s2 = .error e) := by
  obtain ⟨e, he⟩ := sbProcess_sbDefault_errors hist s1
  refine ⟨sbConfigure_empty, ⟨e, he⟩, ⟨e, ?_⟩, ?_⟩
  · have h10 : ¬ hist.length < 10 := by omega
    simp only [mlProcess, if_neg h10, sbConfigure_empty, exceptBind_ok, he, exceptBind_error]
  · by_cases hvl : (hist.length : ℤ) < p.volLookback
    · exact ⟨"insufficient historical data", by rw [psProcess, if_pos hvl]⟩
    · refine ⟨e, ?_⟩
      simp only [psProcess, if_neg hvl, sbConfigure_empty, exceptBind_ok, he, exceptBind_error]

/-- Witness for `seqBootstrapDefault_always_errors` on a 20-bar history. -/
theorem seqBootstrapDefault_always_errors_witness :
    20 ≤ (List.replicate 20 ({ price := 100 } : MarketData)).length
    ∧ (sbConfigure {} = .ok sbDefault
      ∧ (∃ e, sbProcess sbDefault (List.replicate 20 { price := 100 }) [] = .error e)
      ∧ (∃ e, mlProcess ⟨6/10, [.price, .volume, .volatility, .technical]⟩ {}
          (List.replicate 20 { price := 100 }) [] = .error e)
      ∧ (∃ e, psProcess ⟨2/10, 3/10, true, 20, 1/10, true⟩ {}
          (List.replicate 20 { price := 100 }) [] [] = .error e)) :=
  ⟨by simp,
    seqBootstrapDefault_always_errors ⟨6/10, [.price, .volume, .volatility, .technical]⟩
      ⟨2/10, 3/10, true, 20, 1/10, true⟩ {} (List.replicate 20 { price := 100 }) [] []
      (by simp)⟩

/-! ## C10: Sequential Bootstrap's upper-case signal tags -/

lemma signalWeightSum_cons_of_ne {r : AlgorithmResult} {tag : String}
    (hne : r.signal ≠ tag) (rest : List AlgorithmResult) :
    signalWeightSum (r :: rest) tag = signalWeightSum rest tag := by
  simp only [signalWeightSum, List.filter_cons]
  rw [if_neg (by simp [hne])]

lemma signalWeightSum_cons_self (r : AlgorithmResult) (rest : List AlgorithmResult) :
    signalWeightSum (r :: rest) r.signal = r.confidence + signalWeightSum rest r.signal := by
  simp only [signalWeightSum, List.filter_cons]
  rw [if_pos (by simp)]
  simp

/-- C10: every non-error result of Sequential Bootstrap's `Process`
carries an upper-case tag `"BUY"` / `"SELL"` / `"HOLD"` and never a
lower-case one; consequently in the ensemble combiner it contributes to
neither the buy nor the sell confidence sums (its confidence accrues only
under its own upper-case tag), and Meta-Labeling's pass-through check for
a primary `"hold"` never triggers on it. -/
theorem sbResult_uppercase (s : SBState) (hist : List MarketData) (samples : List ℕ)
    (r : AlgorithmResult) (h : sbProcess s hist samples = .ok r) :
    (r.signal = "BUY" ∨ r.signal = "SELL" ∨ r.signal = "HOLD")
    ∧ r.signal ≠ "buy" ∧ r.signal ≠ "sell" ∧ r.signal ≠ "hold"
    ∧ (∀ rest : List AlgorithmResult,
        signalWeightSum (r :: rest) "buy" = signalWeightSum rest "buy"
        ∧ signalWeightSum (r :: rest) "sell" = signalWeightSum rest "sell"
        ∧ signalWeightSum (r :: rest) r.signal = r.confidence + signalWeightSum rest r.signal)
    ∧ mlPassThrough r = false := by
  have hsig : r.signal = "BUY" ∨ r.signal = "SELL" ∨ r.signal = "HOLD" := by
    simp only [sbProcess] at h
    repeat' split at h
    all_goals first
      | (exfalso; exact Except.noConfusion h)
      | (rw [Except.ok.injEq] at h; subst h;
          first
          | (left; rfl)
          | (right; left; rfl)
          | (right; right; rfl))
  have hb : r.signal ≠ "buy" := by rcases hsig with h1 | h1 | h1 <;> rw [h1] <;> decide
  have hs : r.signal ≠ "sell" := by rcases hsig with h1 | h1 | h1 <;> rw [h1] <;> decide
  have hh : r.signal ≠ "hold" := by rcases hsig with h1 | h1 | h1 <;> rw [h1] <;> decide
  refine ⟨hsig, hb, hs, hh, ?_, ?_⟩
  · intro rest
    exact ⟨signalWeightSum_cons_of_ne hb rest, signalWeightSum_cons_of_ne hs rest,
      signalWeightSum_cons_self r rest⟩
  · rw [mlPassThrough]
    exact beq_eq_false_iff_ne.mpr hh

/-- Witness for `sbResult_uppercase`: a 2-bar uptrend with a sequential
sample of `[0, 0]` yields the result `("BUY", "MARKET", confidence 1)`. -/
theorem sbResult_uppercase_witness :
    sbProcess ⟨2, 65/100, true, 2⟩ [⟨100, 0, 0, 0, 0⟩, ⟨101, 0, 0, 0, 0⟩] [0, 0]
        = .ok ⟨"BUY", "MARKET", none, 1⟩
    ∧ (((⟨"BUY", "MARKET", none, 1⟩ : AlgorithmResult).signal = "BUY"
        ∨ (⟨"BUY", "MARKET", none, 1⟩ : AlgorithmResult).signal = "SELL"
        ∨ (⟨"BUY", "MARKET", none, 1⟩ : AlgorithmResult).signal = "HOLD")
      ∧ (⟨"BUY", "MARKET", none, 1⟩ : AlgorithmResult).signal ≠ "buy"
      ∧ (⟨"BUY", "MARKET", none, 1⟩ : AlgorithmResult).signal ≠ "sell"
      ∧ (⟨"BUY", "MARKET", none, 1⟩ : AlgorithmResult).signal ≠ "hold"
      ∧ (∀ rest : List AlgorithmResult,
          signalWeightSum (⟨"BUY", "MARKET", none, 1⟩ :: rest) "buy"
              = signalWeightSum rest "buy"
            ∧ signalWeightSum (⟨"BUY", "MARKET", none, 1⟩ :: rest) "sell"
              = signalWeightSum rest "sell"
            ∧ signalWeightSum (⟨"BUY", "MARKET", none, 1⟩ :: rest)
                (⟨"BUY", "MARKET", none, 1⟩ : AlgorithmResult).signal
              = (⟨"BUY", "MARKET", none, 1⟩ : AlgorithmResult).confidence
                + signalWeightSum rest (⟨"BUY", "MARKET", none, 1⟩ : AlgorithmResult).signal)
      ∧ mlPassThrough ⟨"BUY", "MARKET", none, 1⟩ = false) :=
  ⟨by with_unfolding_all rfl,
    sbResult_uppercase ⟨2, 65/100, true, 2⟩ [⟨100, 0, 0, 0, 0⟩, ⟨101, 0, 0, 0, 0⟩] [0, 0]
      ⟨"BUY", "MARKET", none, 1⟩ (by with_unfolding_all rfl)⟩

/-! ## C1: the confidence-range invariant fails in MVO's sell branch -/

lemma mvo_cex_prices :
    ([⟨100, 0, 0, 0, 0⟩, ⟨90, 0, 0, 0, 0⟩, ⟨63, 0, 0, 0, 0⟩,
        ⟨252/5, 0, 0, 0, 0⟩] : List MarketData).map (fun d => ((d.price : ℚ) : ℝ))
      = [100, 90, 63, 252/5] := by
  norm_num

lemma mvo_cex_returns :
    relReturns ([100, 90, 63, 252/5] : List ℝ) = [-(1/10), -(3/10), -(1/5)] := by
  norm_num [relReturns, List.zipWith]

lemma mvo_cex_mean : mean ([-(1/10), -(3/10), -(1/5)] : List ℝ) = -(1/5) := by
  rw [mean, if_neg (by norm_num)]
  norm_num [List.sum_cons]

lemma mvo_cex_sd : standardDeviation ([-(1/10), -(3/10), -(1/5)] : List ℝ) = 1/10 := by
  rw [standardDeviation, if_neg (by norm_num), mvo_cex_mean]
  have h1 : (([-(1/10), -(3/10), -(1/5)] : List ℝ).map (fun v => (v - -(1/5)) ^ 2)).sum
      / ((([-(1/10), -(3/10), -(1/5)] : List ℝ).length : ℝ) - 1) = (1/10 : ℝ)^2 := by
    norm_num [List.sum_cons]
  rw [h1, Real.sqrt_sq (by norm_num)]

/-- C1 (evaluation of the code at a failing input): on the historical
prices `[100, 90, 63, 50.4]` (mean return `-1/5`, sample standard
deviation `1/10`, Sharpe ratio `-2`), MVO's `Process` takes the sell
branch and returns confidence `0.7 - min(0.2, -2) = 2.7`, outside
`[0, 1]`.  The confidence-range invariant claimed for every algorithm
result therefore fails on `MVOAlgorithm.Process`. -/
theorem mvo_confidence_exceeds_one :
    (mvoProcess {} ⟨100, 0, 0, 0, 0⟩ [⟨100, 0, 0, 0, 0⟩, ⟨90, 0, 0, 0, 0⟩,
        ⟨63, 0, 0, 0, 0⟩, ⟨252/5, 0, 0, 0, 0⟩]).signal = "sell"
    ∧ (mvoProcess {} ⟨100, 0, 0, 0, 0⟩ [⟨100, 0, 0, 0, 0⟩, ⟨90, 0, 0, 0, 0⟩,
        ⟨63, 0, 0, 0, 0⟩, ⟨252/5, 0, 0, 0, 0⟩]).confidence = 27/10
    ∧ ¬ ((27 : ℝ)/10 ≤ 1) := by
  refine ⟨?_, ?_, by norm_num⟩
  · simp only [mvoProcess, mvo_cex_prices, mvo_cex_returns, mvo_cex_mean, mvo_cex_sd,
      show (({} : AlgorithmConfig)).lookup "min_sharpe" = none from rfl,
      show (({} : AlgorithmConfig)).lookup "risk_aversion" = none from rfl]
    norm_num
  · simp only [mvoProcess, mvo_cex_prices, mvo_cex_returns, mvo_cex_mean, mvo_cex_sd,
      show (({} : AlgorithmConfig)).lookup "min_sharpe" = none from rfl,
      show (({} : AlgorithmConfig)).lookup "risk_aversion" = none from rfl]
    norm_num

end GoTrader
